import Mathlib

/-
  Verification of the qa-dashboard ingestion pipeline and scoring engine.

  The Python sources (ingest.py, db.py, scoring.py, utils.py, config.py) are
  shallowly embedded below: SQLite tables become association lists with
  upsert-on-key semantics, the remote Zendesk API becomes an explicit
  `Remote` record of pure functions, and Python truthiness (`or` on strings,
  `not x` on optional integers) is modelled by dedicated helpers.
-/

namespace QA

/-- Python `x or default` on an optional string: `None` and `""` are falsy. -/
def pyOrS (o : Option String) (d : String) : String :=
  match o with
  | none => d
  | some s => if s = "" then d else s

/-- ASCII lowercasing of a string, modelling Python `str.lower`. -/
def strLower (s : String) : String := String.mk (s.data.map Char.toLower)

/-- Does the pattern occur at the head of the character list? -/
def prefAt : List Char → List Char → Bool
  | [], _ => true
  | _ :: _, [] => false
  | a :: as, b :: bs => a == b && prefAt as bs

/-- Substring occurrence test over character lists. -/
def hasSub (pat : List Char) : List Char → Bool
  | [] => prefAt pat []
  | c :: rest => prefAt pat (c :: rest) || hasSub pat rest

/-- Python substring containment `pat in s`. -/
def pyInStr (pat s : String) : Bool := hasSub pat.data s.data

/-- Python truthiness of an optional integer: `None` and `0` are falsy. -/
def pyTruthyId (o : Option Int) : Bool :=
  match o with
  | none => false
  | some n => !(n == 0)

/-! ### Association-list tables with SQLite upsert semantics

An SQLite table with a key column and `ON CONFLICT ... DO UPDATE` writes is
modelled as a `List (K × V)`: `upsertA` replaces the value at an existing key
in place, otherwise appends a fresh row at the end. -/

section AssocTable

variable {K V : Type} [DecidableEq K]

/-- Insert-or-update keyed by `k`: replace the first row with key `k`
in place, else append a new row. -/
def upsertA (k : K) (v : V) : List (K × V) → List (K × V)
  | [] => [(k, v)]
  | p :: rest => if p.1 = k then (k, v) :: rest else p :: upsertA k v rest

/-- Value stored at key `k`, if any. -/
def alookup (k : K) : List (K × V) → Option V
  | [] => none
  | p :: rest => if p.1 = k then some p.2 else alookup k rest

/-- The key column of a table. -/
def akeys (s : List (K × V)) : List K := s.map Prod.fst

/-- Number of rows with key `k`. -/
def countKey (k : K) : List (K × V) → Nat
  | [] => 0
  | p :: rest => (if p.1 = k then 1 else 0) + countKey k rest

/-- Apply a list of writes (in order) to a table. -/
def applyW (w : List (K × V)) (s : List (K × V)) : List (K × V) :=
  w.foldl (fun st p => upsertA p.1 p.2 st) s

/-- The value carried by the last write with key `k`, if any. -/
def lastVal : List (K × V) → K → Option V
  | [], _ => none
  | p :: w, k =>
    match lastVal w k with
    | some v => some v
    | none => if p.1 = k then some p.2 else none

/-- Pointwise value update of a table (keys and row order untouched). -/
def updVals (f : K → Option V) (s : List (K × V)) : List (K × V) :=
  s.map (fun p => match f p.1 with
    | some u => (p.1, u)
    | none => p)

end AssocTable


/-! ### utils.py — text normalization and keyword matching -/

/-- Is the character ASCII whitespace (Python regex `\s` on the ASCII range)? -/
def isWsChar (c : Char) : Bool :=
  c == ' ' || c == '\t' || c == '\n' || c == '\r' || c == '\x0b' || c == '\x0c'

/-- Collapse each whitespace run to a single space, `re.sub(r"\s+", " ", text)`. -/
def collapseWs : List Char → List Char
  | [] => []
  | [c] => [if isWsChar c then ' ' else c]
  | c :: d :: rest =>
    if isWsChar c && isWsChar d then collapseWs (d :: rest)
    else (if isWsChar c then ' ' else c) :: collapseWs (d :: rest)

/-- Strip leading and trailing ASCII whitespace, Python `str.strip`. -/
def stripWs (l : List Char) : List Char :=
  ((l.dropWhile isWsChar).reverse.dropWhile isWsChar).reverse

/-- Translation of `normalize` from utils.py: collapse whitespace runs to one
space, strip, lowercase. -/
def normalize (text : String) : String :=
  String.mk ((stripWs (collapseWs text.data)).map Char.toLower)

/-- Translation of `match_keywords` from utils.py. The Python version consults
`re.search` in its "regex" mode; the semantics of the regex engine is
abstracted as the function parameter `regexSearch` (no claim exercises it). -/
def match_keywords (regexSearch : String → String → Bool) (text : String)
    (inc : List String) (mode : String) : Bool :=
  let t := normalize text
  if inc.isEmpty then true
  else if mode == "regex" then inc.any (fun p => regexSearch p t)
  else if mode == "phrase" then inc.any (fun p => pyInStr (strLower p) t)
  else if mode == "any" then inc.any (fun s => pyInStr (strLower s) t)
  else if mode == "all" then inc.all (fun s => pyInStr (strLower s) t)
  else true

/-! ### scoring.py — the rule-based scorer -/

/-- A ticket record as read back from the store and passed to `score_ticket`:
the fields the scorer consults. `reopenedRecently` models the truthiness of
`t.get("reopened_recently")`. -/
structure ScoreTicket where
  csat : Option Int
  payerTier : Option String
  reopenedRecently : Bool
  deriving DecidableEq

/-- A comment dict as read back from the store (`comments_map` entries):
the fields the scorer consults. -/
structure ScoreComment where
  public : Bool
  authorEmail : String
  deriving DecidableEq

/-- The derived-signal configuration dict `cfg` of `score_ticket`; each field
models `cfg.get(key, False)`. -/
structure Cfg where
  sensitiveHit : Bool
  isComplaint : Bool
  macroMismatch : Bool
  multiTopic : Bool
  personalization : Bool
  empathy : Bool
  easyOnly : Bool
  deriving DecidableEq

/-- Translation of `long_thread`: strictly more than 4 public comments. -/
def long_thread (comments : List ScoreComment) : Bool :=
  (comments.filter (fun c => c.public)).length > 4

/-- Translation of `multiple_humans_in_thread`: more than 2 distinct non-empty
author emails among public comments (a Python set models as dedup). -/
def multiple_humans_in_thread (comments : List ScoreComment) : Bool :=
  ((comments.filterMap (fun c =>
    if c.public && !(c.authorEmail == "") then some c.authorEmail
    else none)).dedup).length > 2

/-- One rule application inside `score_ticket`: when the condition fires, the
rule's weight is looked up (a missing key raises KeyError in Python, modelled
as `none`), added to the score, and the reason label is appended. -/
def step (w : String → Option Int) (c : Bool) (key label : String)
    (acc : Int × List String) : Option (Int × List String) :=
  if c then
    match w key with
    | some v => some (acc.1 + v, acc.2 ++ [label])
    | none => none
  else some acc

/-- Translation of `score_ticket` from scoring.py: eleven sequential rules,
accumulating a score and an ordered reason list from `(0, [])`. -/
def score_ticket (t : ScoreTicket) (comments : List ScoreComment)
    (w : String → Option Int) (cfg : Cfg) : Option (Int × List String) :=
  (step w (match t.csat with | some v => decide (v ≤ 2) | none => false)
    "low_csat" "Low CSAT" (0, [])).bind fun a1 =>
  (step w cfg.sensitiveHit "sensitive" "Sensitive keyword" a1).bind fun a2 =>
  (step w (multiple_humans_in_thread comments) "multi_agents"
    "Multiple authors" a2).bind fun a3 =>
  (step w ((t.payerTier == some "VIP" || t.payerTier == some "Whale") &&
      cfg.isComplaint) "vip_complaint" "VIP complaint" a3).bind fun a4 =>
  (step w t.reopenedRecently "reopened" "Reopened" a4).bind fun a5 =>
  (step w cfg.macroMismatch "macro_mismatch" "Macro–topic mismatch" a5).bind fun a6 =>
  (step w (long_thread comments) "long_thread" "Long thread" a6).bind fun a7 =>
  (step w cfg.multiTopic "multi_topic" "Multi-topic" a7).bind fun a8 =>
  (step w ((match t.csat with | some v => decide (v ≥ 5) | none => false) &&
      cfg.personalization) "excellent_personalization"
    "Personalized & positive" a8).bind fun a9 =>
  (step w cfg.empathy "empathy" "Empathy" a9).bind fun a10 =>
  step w (cfg.easyOnly && !cfg.sensitiveHit) "easy_issue_penalty"
    "Easy tech-only" a10

/-- One row of the fixed rule table: fired condition, weight key, reason label. -/
structure RuleI where
  cond : Bool
  key : String
  label : String

/-- Running a list of rules in order over an accumulator. -/
def runRules (w : String → Option Int) : List RuleI → (Int × List String) → Option (Int × List String)
  | [] => some
  | r :: rest => fun acc => (step w r.cond r.key r.label acc).bind (runRules w rest)

/-- The rule table of `score_ticket` in its fixed evaluation order. -/
def ruleTable (t : ScoreTicket) (comments : List ScoreComment) (cfg : Cfg) :
    List RuleI :=
  [⟨match t.csat with | some v => decide (v ≤ 2) | none => false,
      "low_csat", "Low CSAT"⟩,
   ⟨cfg.sensitiveHit, "sensitive", "Sensitive keyword"⟩,
   ⟨multiple_humans_in_thread comments, "multi_agents", "Multiple authors"⟩,
   ⟨(t.payerTier == some "VIP" || t.payerTier == some "Whale") &&
      cfg.isComplaint, "vip_complaint", "VIP complaint"⟩,
   ⟨t.reopenedRecently, "reopened", "Reopened"⟩,
   ⟨cfg.macroMismatch, "macro_mismatch", "Macro–topic mismatch"⟩,
   ⟨long_thread comments, "long_thread", "Long thread"⟩,
   ⟨cfg.multiTopic, "multi_topic", "Multi-topic"⟩,
   ⟨(match t.csat with | some v => decide (v ≥ 5) | none => false) &&
      cfg.personalization, "excellent_personalization", "Personalized & positive"⟩,
   ⟨cfg.empathy, "empathy", "Empathy"⟩,
   ⟨cfg.easyOnly && !cfg.sensitiveHit, "easy_issue_penalty", "Easy tech-only"⟩]

/-! ### ingest.py — remote data model -/

/-- A remote user payload (`GET /users/{id}`); `none` fields model absent
dict keys. -/
structure UserR where
  id : Option Int
  email : Option String
  name : Option String
  deriving DecidableEq

/-- A satisfaction-rating sub-dict of a ticket payload. -/
structure SatR where
  score : Option Int
  deriving DecidableEq

/-- One entry of a ticket's generic custom-field bag. -/
structure FieldR where
  id : Option Int
  value : Option String
  deriving DecidableEq

/-- A remote ticket payload (`GET /tickets/{id}`). -/
structure TicketD where
  id : Option Int
  status : Option String
  subject : Option String
  created_at : Option String
  updated_at : Option String
  satisfaction_rating : Option SatR
  requester_id : Option Int
  assignee_id : Option Int
  tags : List String
  custom_fields : List FieldR
  deriving DecidableEq

/-- A remote comment payload. -/
structure CommentD where
  author_id : Option Int
  created_at : Option String
  public : Bool
  html_body : Option String
  body : Option String
  deriving DecidableEq

/-- One audit event; `ApplyMacro` events carry a title in `value` or in
`mTitle` (the payload's second title key). -/
structure EventD where
  type : String
  value : Option String
  mTitle : Option String
  deriving DecidableEq

/-- One audit: a list of events. -/
structure AuditD where
  events : List EventD
  deriving DecidableEq

/-- One group-membership payload entry. -/
structure MembershipD where
  group_id : Option Int
  deriving DecidableEq

/-- A remote group payload. -/
structure GroupD where
  name : Option String
  deriving DecidableEq

/-- The fixed remote dataset an ingestion run reads: each endpoint a pure
function of its argument. `users i = none` models an empty user payload or a
lookup degraded by a swallowed 400/404; `groups g = none` models a swallowed
group-fetch failure or an empty payload. -/
structure Remote where
  tickets : Int → TicketD
  comments : Int → List CommentD
  audits : Int → List AuditD
  users : Int → Option UserR
  memberships : Int → List MembershipD
  groups : Int → Option GroupD

/-- The effective `BOT_EMAILS` set (config.py overrides the ingest.py default). -/
def BOT_EMAILS : List String := ["ilya@candivore.io", "maor@candivore.io"]

/-- The effective `CUSTOM_FIELDS` name-to-field-id mapping. -/
def CUSTOM_FIELDS : List (String × Int) :=
  [("topic", 360019266879),
   ("sub_topic", 5066696830106),
   ("version", 1260819767490),
   ("language", 5428339880602),
   ("payer_tier", 6645722066458)]

/-- The stub user returned for system/unknown authors or degraded lookups. -/
def stubUser (uid : Option Int) : UserR := ⟨uid, some "", some "Unknown"⟩

/-- Translation of `get_user`: a falsy or non-positive id yields the stub,
otherwise the remote payload (degrading to the stub when empty or failed).
The process-lifetime cache only memoizes this pure lookup. -/
def get_user (R : Remote) (uid : Option Int) : UserR :=
  match uid with
  | none => stubUser none
  | some u =>
    if u ≤ 0 then stubUser (some u)
    else
      match R.users u with
      | some usr => usr
      | none => stubUser (some u)

/-- Translation of `get_user_group_names`: membership entries with falsy group
ids are skipped; failed or empty group fetches are skipped; empty names are
skipped. -/
def get_user_group_names (R : Remote) (uid : Int) : List String :=
  (R.memberships uid).filterMap (fun gm =>
    match gm.group_id with
    | none => none
    | some gid =>
      if gid = 0 then none
      else
        match R.groups gid with
        | none => none
        | some g =>
          match g.name with
          | none => none
          | some n => if n = "" then none else some n)

/-- Translation of `infer_bpo_from_groups`: ordered substring tests over the
joined, lowercased group-name list; first match wins, no match yields `none`. -/
def infer_bpo_from_groups (group_names : List String) : Option String :=
  let joined := String.intercalate " " (group_names.map strLower)
  if pyInStr "icx" joined then some "ICX"
  else if pyInStr "tg" joined || pyInStr "telus" joined then some "TG"
  else if pyInStr "cnx" joined || pyInStr "concentrix" joined then some "CNX"
  else none

/-- The first custom-field bag entry with the given id, if any (its value may
itself be absent). -/
def firstFieldValue : List FieldR → Int → Option String
  | [], _ => none
  | f :: rest, fid => if f.id = some fid then f.value else firstFieldValue rest fid

/-- Translation of `extract_custom_field`: resolve the configured numeric
field id (a missing or falsy id means "not tracked", yielding `none`), then
return the value of the first bag entry carrying that id. -/
def extract_custom_field (t : TicketD) (name : String) : Option String :=
  match alookup name CUSTOM_FIELDS with
  | none => none
  | some fid =>
    if fid = 0 then none
    else firstFieldValue t.custom_fields fid

/-- The title an audit event contributes: `value or macro_title`, where
`None` and `""` are falsy. -/
def eventTitle (e : EventD) : Option String :=
  match pyOrS e.value (pyOrS e.mTitle "") with
  | "" => none
  | s => some s

/-- Macro titles collected from the audit history: every `ApplyMacro` event
with a truthy title contributes it, in audit order. -/
def macroTitles (R : Remote) (tid : Int) : List String :=
  ((R.audits tid).map (fun a => a.events.filterMap (fun e =>
    if e.type = "ApplyMacro" then eventTitle e else none))).flatten

/-! ### db.py — the persistent store -/

/-- One row of the `tickets` table, in schema order. -/
structure TicketRow where
  id : Option Int
  status : Option String
  subject : Option String
  created_at : Option String
  updated_at : Option String
  solved_at : Option String
  csat : Option Int
  csat_offered : Int
  requester_id : Option Int
  requester_email : String
  assignee_id : Option Int
  assignee_email : String
  assignee_name : String
  bpo : Option String
  payer_tier : Option String
  language : Option String
  topic : Option String
  sub_topic : Option String
  version : Option String
  tags : String
  deriving DecidableEq

/-- One row of the `comments` table (sans its composite key). -/
structure CommentRow where
  created_at : Option String
  public : Int
  author_id : Option Int
  author_email : String
  author_name : String
  body : String
  deriving DecidableEq

/-- The persistent store: three keyed tables modelling db.py's schema.
Tickets are keyed by the id column, comments by (ticket_id, idx), audits by
(ticket_id, created_at); the audit payload is the pipe-joined macro titles. -/
structure Store where
  tickets : List (Option Int × TicketRow)
  comments : List ((Int × Nat) × CommentRow)
  audits : List ((Int × Option String) × String)
  deriving DecidableEq

def emptyStore : Store := ⟨[], [], []⟩

/-- db.py `upsert_ticket`: keyed by the row's id column, updating all mutable
columns on conflict. -/
def upsert_ticket (s : List (Option Int × TicketRow)) (r : TicketRow) :
    List (Option Int × TicketRow) := upsertA r.id r s

/-- db.py `upsert_comment`: keyed by (ticket_id, idx), updating all other
columns on conflict. -/
def upsert_comment (s : List ((Int × Nat) × CommentRow)) (key : Int × Nat)
    (c : CommentRow) : List ((Int × Nat) × CommentRow) := upsertA key c s

/-- db.py `upsert_audit`: keyed by (ticket_id, created_at). -/
def upsert_audit (s : List ((Int × Option String) × String))
    (key : Int × Option String) (m : String) :
    List ((Int × Option String) × String) := upsertA key m s

/-! ### ingest.py — the orchestrator -/

/-- The comment row built for one remote comment. -/
def commentRow (R : Remote) (c : CommentD) : CommentRow :=
  let au := get_user R c.author_id
  { created_at := c.created_at
    public := if c.public then 1 else 0
    author_id := c.author_id
    author_email := strLower (pyOrS au.email "")
    author_name := pyOrS au.name "Unknown"
    body := pyOrS c.html_body (pyOrS c.body "") }

/-- The keyed comment rows of a thread, indexed by `enumerate` position
starting at `base`. -/
def commentRowsFrom (R : Remote) (tid : Int) (base : Nat) :
    List CommentD → List ((Int × Nat) × CommentRow)
  | [] => []
  | c :: rest => ((tid, base), commentRow R c) :: commentRowsFrom R tid (base + 1) rest

/-- Is the comment a human public reply: public, with a non-empty author email
that is neither a bot's nor the requester's? -/
def isHumanReply (R : Remote) (bots : List String) (reqEmail : String)
    (c : CommentD) : Bool :=
  let aEmail := strLower (pyOrS (get_user R c.author_id).email "")
  c.public && !(aEmail == "") && !(bots.contains aEmail) && !(aEmail == reqEmail)

/-- The requester email as computed during ingestion. -/
def requesterEmail (R : Remote) (tid : Int) : String :=
  strLower (pyOrS (get_user R (R.tickets tid).requester_id).email "")

/-- The exclusion rules of `ingest`, evaluated in source order: unassigned,
bot-assigned, then no human public reply. `true` means the ticket is skipped
with no write. -/
def skipTicket (R : Remote) (bots : List String) (tid : Int) : Bool :=
  let t := R.tickets tid
  if !(pyTruthyId t.assignee_id) then true
  else
    let assignee_email := strLower (pyOrS (get_user R t.assignee_id).email "")
    if bots.contains assignee_email then true
    else !((R.comments tid).any (isHumanReply R bots (requesterEmail R tid)))

/-- The 20-column ticket row built by `ingest` for one ticket, in db.py's
schema order; `updated_at` doubles as the `solved_at` proxy. -/
def ticketRowOf (R : Remote) (tid : Int) : TicketRow :=
  let t := R.tickets tid
  let requester := get_user R t.requester_id
  let assignee := get_user R t.assignee_id
  { id := t.id
    status := t.status
    subject := t.subject
    created_at := t.created_at
    updated_at := t.updated_at
    solved_at := t.updated_at
    csat := t.satisfaction_rating.bind (fun sr => sr.score)
    csat_offered := if t.satisfaction_rating.isSome then 1 else 0
    requester_id := t.requester_id
    requester_email := strLower (pyOrS requester.email "")
    assignee_id := t.assignee_id
    assignee_email := strLower (pyOrS assignee.email "")
    assignee_name := pyOrS assignee.name "Unknown"
    bpo := infer_bpo_from_groups (get_user_group_names R (t.assignee_id.getD 0))
    payer_tier := extract_custom_field t "payer_tier"
    language := extract_custom_field t "language"
    topic := extract_custom_field t "topic"
    sub_topic := extract_custom_field t "sub_topic"
    version := extract_custom_field t "version"
    tags := String.intercalate "," t.tags }

/-- Processing of a single discovered ticket id: apply the exclusion rules,
then upsert the ticket row, every comment row in thread order, and (when
macro titles were found) one audit row. -/
def processTicket (R : Remote) (bots : List String) (tid : Int) (s : Store) :
    Store :=
  if skipTicket R bots tid then s
  else
    let s1 : Store := { s with tickets := upsert_ticket s.tickets (ticketRowOf R tid) }
    let s2 : Store := { s1 with
      comments := (commentRowsFrom R tid 0 (R.comments tid)).foldl
        (fun st p => upsert_comment st p.1 p.2) s1.comments }
    let mt := macroTitles R tid
    if mt.isEmpty then s2
    else { s2 with
      audits := upsert_audit s2.audits (tid, (R.tickets tid).updated_at)
        (String.intercalate "|" mt) }

/-- The ingest loop over discovered ticket ids with its run-scoped seen-set. -/
def ingestLoop (R : Remote) (bots : List String) :
    List Int → List Int → Store → Store
  | [], _, s => s
  | tid :: rest, seen, s =>
    if seen.contains tid then ingestLoop R bots rest seen s
    else ingestLoop R bots rest (tid :: seen) (processTicket R bots tid s)

/-- Translation of `ingest`: the discovered ids (the concatenated slice
search results, possibly with boundary duplicates) are processed in order
through the run-scoped seen-set; every surviving ticket is written through. -/
def ingest (R : Remote) (bots : List String) (ids : List Int) (s : Store) :
    Store :=
  ingestLoop R bots ids [] s

/-! ### The writes a run performs, per table -/

/-- The ticket-table writes of one processed id. -/
def ticketWritesT (R : Remote) (bots : List String) (tid : Int) :
    List (Option Int × TicketRow) :=
  if skipTicket R bots tid then []
  else [((ticketRowOf R tid).id, ticketRowOf R tid)]

/-- The comment-table writes of one processed id. -/
def ticketWritesC (R : Remote) (bots : List String) (tid : Int) :
    List ((Int × Nat) × CommentRow) :=
  if skipTicket R bots tid then []
  else commentRowsFrom R tid 0 (R.comments tid)

/-- The audit-table writes of one processed id. -/
def ticketWritesA (R : Remote) (bots : List String) (tid : Int) :
    List ((Int × Option String) × String) :=
  if skipTicket R bots tid then []
  else
    let mt := macroTitles R tid
    if mt.isEmpty then []
    else [((tid, (R.tickets tid).updated_at), String.intercalate "|" mt)]

/-- The writes of a whole run for one table, given the per-ticket write list:
the loop over discovered ids with the run-scoped seen-set. -/
def runWs {W : Type} (f : Int → List W) : List Int → List Int → List W
  | [], _ => []
  | tid :: rest, seen =>
    if seen.contains tid then runWs f rest seen
    else f tid ++ runWs f rest (tid :: seen)

/-- All ticket-table writes of a run. -/
def runWritesT (R : Remote) (bots : List String) (ids seen : List Int) :
    List (Option Int × TicketRow) :=
  runWs (ticketWritesT R bots) ids seen

/-- All comment-table writes of a run. -/
def runWritesC (R : Remote) (bots : List String) (ids seen : List Int) :
    List ((Int × Nat) × CommentRow) :=
  runWs (ticketWritesC R bots) ids seen

/-- All audit-table writes of a run. -/
def runWritesA (R : Remote) (bots : List String) (ids seen : List Int) :
    List ((Int × Option String) × String) :=
  runWs (ticketWritesA R bots) ids seen


/-! ### The remote client retry/backoff loop (`get_json`) -/

/-- One HTTP response: status code, optional parsed Retry-After header, and
the parsed JSON payload of a successful response. -/
structure HttpResp where
  status : Nat
  retryAfter : Option Nat
  body : String
  deriving DecidableEq

/-- The statuses `get_json` raises on immediately (unrecoverable request
shape or auth problems). -/
def fastFailStatuses : List Nat := [400, 401, 403, 404, 422]

/-- The terminal outcomes of `get_json`: an immediately-raised HTTP error, or
the RuntimeError after the retry ceiling is exhausted. -/
inductive GetErr where
  | httpError (status : Nat)
  | exhausted
  deriving DecidableEq

/-- Translation of the `get_json` retry loop body: `attempt` counts requests
made so far, `remaining` is what is left of the attempt ceiling of 5,
`backoff` is the doubling counter (capped at 40), and `sleeps` accumulates
the sleep durations performed. A 429 sleeps for the Retry-After value (or the
backoff) capped at 20; another 4xx/5xx either fast-fails or sleeps for the
backoff capped at 10; a success returns the parsed body. -/
def get_json_go (resp : Nat → HttpResp) :
    Nat → Nat → Nat → List Nat → Except GetErr String × List Nat
  | _, 0, _, sleeps => (Except.error GetErr.exhausted, sleeps)
  | attempt, rem + 1, backoff, sleeps =>
    let r := resp attempt
    if r.status == 429 then
      get_json_go resp (attempt + 1) rem (min (backoff * 2) 40)
        (sleeps ++ [min (r.retryAfter.getD backoff) 20])
    else if r.status ≥ 400 then
      if fastFailStatuses.contains r.status then
        (Except.error (GetErr.httpError r.status), sleeps)
      else
        get_json_go resp (attempt + 1) rem (min (backoff * 2) 40)
          (sleeps ++ [min backoff 10])
    else (Except.ok r.body, sleeps)

/-- Translation of `get_json`: up to 5 attempts against the response sequence,
starting backoff 2. Returns the terminal outcome and the sleeps performed. -/
def get_json (resp : Nat → HttpResp) : Except GetErr String × List Nat :=
  get_json_go resp 0 5 2 []

/-! ### Definitions taken from the spec's words (for refinement claims) -/

/-- Modelled from the spec: the default weight table of §4.5. src/ carries no
default weights (the scorer always receives a weights mapping as an argument),
so the defaults come from the spec's rule table. -/
def DEFAULT_WEIGHTS : List (String × Int) :=
  [("low_csat", 15), ("sensitive", 20), ("multi_agents", 10),
   ("vip_complaint", 15), ("reopened", 10), ("macro_mismatch", 10),
   ("long_thread", 8), ("multi_topic", 8), ("excellent_personalization", 20),
   ("empathy", 5), ("easy_issue_penalty", -20)]

/-- The default weights as a lookup function. -/
def defaultWeightFn : String → Option Int := fun k => alookup k DEFAULT_WEIGHTS

/-- The ordered partner-fragment rule list of the BPO classifier, as the spec
describes it: fragments to test, label to return. -/
def bpoRules : List (List String × String) :=
  [(["icx"], "ICX"), (["tg", "telus"], "TG"), (["cnx", "concentrix"], "CNX")]

/-- First-match evaluation of ordered substring rules over the joined text. -/
def firstMatch : List (List String × String) → String → Option String
  | [], _ => none
  | (pats, label) :: rest, joined =>
    if pats.any (fun p => pyInStr p joined) then some label
    else firstMatch rest joined

/-- Modelled from the spec: "derive a single label from the joined, lowercased
group-name list via ordered substring tests against known partner-name
fragments; first match wins; no match yields an unclassified (null) label". -/
def bpoSpec (group_names : List String) : Option String :=
  firstMatch bpoRules (String.intercalate " " (group_names.map strLower))

/-- Modelled from the spec: exclusion rule (c) exactly as the claim words it —
a public comment whose author is neither the requester nor a bot email — with
no requirement that the author email be non-empty. -/
def specHumanReply (R : Remote) (bots : List String) (reqEmail : String)
    (c : CommentD) : Bool :=
  let aEmail := strLower (pyOrS (get_user R c.author_id).email "")
  c.public && !(bots.contains aEmail) && !(aEmail == reqEmail)

/-- Modelled from the spec: the claim's skip predicate — no assignee, or
bot-assigned, or no qualifying public reply in the spec's sense. -/
def claimSkip (R : Remote) (bots : List String) (tid : Int) : Bool :=
  let t := R.tickets tid
  if !(pyTruthyId t.assignee_id) then true
  else
    let assignee_email := strLower (pyOrS (get_user R t.assignee_id).email "")
    if bots.contains assignee_email then true
    else !((R.comments tid).any (specHumanReply R bots (requesterEmail R tid)))

/-! ### Concrete remote datasets used in counterexamples -/

/-- A solved ticket with a human assignee and requester. -/
def ticket1 : TicketD :=
  { id := some 1
    status := some "solved"
    subject := some "Hi"
    created_at := some "2026-01-01T00:00:00Z"
    updated_at := some "2026-01-02T00:00:00Z"
    satisfaction_rating := none
    requester_id := some 20
    assignee_id := some 10
    tags := []
    custom_fields := [] }

def agentUser : UserR := ⟨some 10, some "agent@x.com", some "Agnes"⟩

def requesterUser : UserR := ⟨some 20, some "req@x.com", some "Rene"⟩

/-- A public comment from the human agent. -/
def commentA : CommentD :=
  { author_id := some 10
    created_at := some "2026-01-01T01:00:00Z"
    public := true
    html_body := none
    body := some "hello" }

/-- A second public comment from the human agent. -/
def commentB : CommentD :=
  { author_id := some 10
    created_at := some "2026-01-01T02:00:00Z"
    public := true
    html_body := none
    body := some "more" }

/-- A public comment whose author is a sentinel system user (negative id), so
its resolved email is empty. -/
def commentStub : CommentD :=
  { author_id := some (-5)
    created_at := some "2026-01-01T03:00:00Z"
    public := true
    html_body := none
    body := some "auto reply" }

def usersEx : Int → Option UserR := fun i =>
  if i = 10 then some agentUser
  else if i = 20 then some requesterUser
  else none

/-- A well-formed remote (ticket payload ids match the fetched id) where every
ticket's thread has two comments. -/
def R1ex : Remote :=
  { tickets := fun i => { ticket1 with id := some i }
    comments := fun _ => [commentA, commentB]
    audits := fun _ => []
    users := usersEx
    memberships := fun _ => []
    groups := fun _ => none }

/-- The same remote after the thread shrank to one comment. -/
def R2ex : Remote := { R1ex with comments := fun _ => [commentA] }

/-- A remote whose only public reply comes from an empty-email sentinel
author. -/
def R3ex : Remote := { R1ex with comments := fun _ => [commentStub] }

/-- A ticket row with id 42 and subject "A" (all other columns inert). -/
def rowA : TicketRow :=
  { id := some 42
    status := some "solved"
    subject := some "A"
    created_at := none
    updated_at := none
    solved_at := none
    csat := none
    csat_offered := 0
    requester_id := none
    requester_email := ""
    assignee_id := none
    assignee_email := ""
    assignee_name := ""
    bpo := none
    payer_tier := none
    language := none
    topic := none
    sub_topic := none
    version := none
    tags := "" }

/-- The same row re-fetched later with subject "B". -/
def rowB : TicketRow := { rowA with subject := some "B" }

/-- A remote client answering 429 three times, then 200. -/
def respOk : Nat → HttpResp := fun i =>
  if i < 3 then ⟨429, some 7, "throttled"⟩ else ⟨200, none, "payload"⟩

/-- A remote client answering 503 forever. -/
def respBad : Nat → HttpResp := fun _ => ⟨503, none, ""⟩

-- (theorems follow; all definitions above)

section AssocTable

variable {K V : Type} [DecidableEq K]

omit [DecidableEq K] in
theorem akeys_nil : akeys ([] : List (K × V)) = [] := rfl

omit [DecidableEq K] in
theorem akeys_cons (p : K × V) (s : List (K × V)) :
    akeys (p :: s) = p.1 :: akeys s := rfl

omit [DecidableEq K] in
theorem mem_akeys_of_mem {p : K × V} {s : List (K × V)} (h : p ∈ s) :
    p.1 ∈ akeys s := List.mem_map_of_mem Prod.fst h

theorem applyW_nil (s : List (K × V)) : applyW [] s = s := rfl

theorem applyW_cons (p : K × V) (w s : List (K × V)) :
    applyW (p :: w) s = applyW w (upsertA p.1 p.2 s) := rfl

theorem applyW_append (a b s : List (K × V)) :
    applyW (a ++ b) s = applyW b (applyW a s) := by
  simp [applyW, List.foldl_append]

theorem lastVal_nil (k : K) : lastVal ([] : List (K × V)) k = none := rfl

theorem lastVal_cons (p : K × V) (w : List (K × V)) (k : K) :
    lastVal (p :: w) k =
      match lastVal w k with
      | some v => some v
      | none => if p.1 = k then some p.2 else none := rfl

theorem lastVal_append (a b : List (K × V)) (k : K) :
    lastVal (a ++ b) k =
      match lastVal b k with
      | some v => some v
      | none => lastVal a k := by
  induction a with
  | nil =>
    rw [List.nil_append, lastVal_nil]
    cases lastVal b k <;> rfl
  | cons p a ih =>
    rw [List.cons_append, lastVal_cons, ih, lastVal_cons]
    cases lastVal b k <;> cases lastVal a k <;> rfl

theorem alookup_upsertA_self (k : K) (v : V) (s : List (K × V)) :
    alookup k (upsertA k v s) = some v := by
  induction s with
  | nil => simp [upsertA, alookup]
  | cons p rest ih =>
    by_cases h : p.1 = k
    · simp [upsertA, alookup, h]
    · simp [upsertA, alookup, h, ih]

theorem alookup_upsertA_ne (k k' : K) (v : V) (s : List (K × V)) (h : k' ≠ k) :
    alookup k' (upsertA k v s) = alookup k' s := by
  induction s with
  | nil => simp [upsertA, alookup, Ne.symm h]
  | cons p rest ih =>
    by_cases hp : p.1 = k
    · subst hp
      simp [upsertA, alookup, Ne.symm h]
    · simp only [upsertA, if_neg hp]
      by_cases hq : p.1 = k'
      · simp [alookup, hq]
      · simp [alookup, hq, ih]

theorem akeys_upsertA_mem (k : K) (v : V) (s : List (K × V)) (h : k ∈ akeys s) :
    akeys (upsertA k v s) = akeys s := by
  induction s with
  | nil => simp [akeys_nil] at h
  | cons p rest ih =>
    by_cases hp : p.1 = k
    · simp [upsertA, hp, akeys_cons]
    · rw [akeys_cons] at h
      rcases List.mem_cons.mp h with h0 | h0
      · exact absurd h0.symm hp
      · simp only [upsertA, if_neg hp, akeys_cons]
        rw [ih h0]

theorem akeys_upsertA_not_mem (k : K) (v : V) (s : List (K × V)) (h : k ∉ akeys s) :
    akeys (upsertA k v s) = akeys s ++ [k] := by
  induction s with
  | nil => simp [upsertA, akeys_cons, akeys_nil]
  | cons p rest ih =>
    rw [akeys_cons] at h
    have hp : p.1 ≠ k := fun hh => h (by rw [hh]; exact List.mem_cons_self k _)
    have h' : k ∉ akeys rest := fun hh => h (List.mem_cons_of_mem _ hh)
    simp only [upsertA, if_neg hp, akeys_cons, List.cons_append]
    rw [ih h']

theorem mem_akeys_upsertA (k k' : K) (v : V) (s : List (K × V)) (h : k' ∈ akeys s) :
    k' ∈ akeys (upsertA k v s) := by
  by_cases hk : k ∈ akeys s
  · rw [akeys_upsertA_mem k v s hk]; exact h
  · rw [akeys_upsertA_not_mem k v s hk]; exact List.mem_append_left _ h

theorem self_mem_akeys_upsertA (k : K) (v : V) (s : List (K × V)) :
    k ∈ akeys (upsertA k v s) := by
  by_cases hk : k ∈ akeys s
  · rw [akeys_upsertA_mem k v s hk]; exact hk
  · rw [akeys_upsertA_not_mem k v s hk]; simp

theorem nodup_akeys_upsertA (k : K) (v : V) (s : List (K × V))
    (h : (akeys s).Nodup) : (akeys (upsertA k v s)).Nodup := by
  by_cases hk : k ∈ akeys s
  · rw [akeys_upsertA_mem k v s hk]; exact h
  · rw [akeys_upsertA_not_mem k v s hk]
    simp [List.nodup_append, h, hk]

theorem nodup_akeys_applyW (w s : List (K × V)) (h : (akeys s).Nodup) :
    (akeys (applyW w s)).Nodup := by
  induction w generalizing s with
  | nil => exact h
  | cons p w ih => exact ih _ (nodup_akeys_upsertA p.1 p.2 s h)

theorem mem_akeys_applyW_of_mem (w s : List (K × V)) (k : K) (h : k ∈ akeys s) :
    k ∈ akeys (applyW w s) := by
  induction w generalizing s with
  | nil => exact h
  | cons p w ih => exact ih _ (mem_akeys_upsertA p.1 k p.2 s h)

theorem mem_akeys_applyW_of_lastVal (w s : List (K × V)) (k : K) (v : V)
    (h : lastVal w k = some v) : k ∈ akeys (applyW w s) := by
  induction w generalizing s with
  | nil => simp [lastVal_nil] at h
  | cons p w ih =>
    rw [lastVal_cons] at h
    rw [applyW_cons]
    cases hw : lastVal w k with
    | some u =>
      rw [hw] at h
      exact ih _ (hw.trans h)
    | none =>
      rw [hw] at h
      by_cases hp : p.1 = k
      · subst hp
        exact mem_akeys_applyW_of_mem w _ p.1 (self_mem_akeys_upsertA p.1 p.2 s)
      · simp [hp] at h

theorem alookup_applyW_not_written (w s : List (K × V)) (k : K)
    (h : lastVal w k = none) : alookup k (applyW w s) = alookup k s := by
  induction w generalizing s with
  | nil => rfl
  | cons p w ih =>
    rw [lastVal_cons] at h
    cases hw : lastVal w k with
    | some u => rw [hw] at h; simp at h
    | none =>
      rw [hw] at h
      have hp : ¬(p.1 = k) := by
        intro hh
        rw [if_pos hh] at h
        exact Option.noConfusion h
      rw [applyW_cons, ih _ hw, alookup_upsertA_ne p.1 k p.2 s (Ne.symm hp)]

theorem alookup_applyW_lastVal (w s : List (K × V)) (k : K) (v : V)
    (h : lastVal w k = some v) : alookup k (applyW w s) = some v := by
  induction w generalizing s with
  | nil => simp [lastVal_nil] at h
  | cons p w ih =>
    rw [lastVal_cons] at h
    cases hw : lastVal w k with
    | some u =>
      rw [hw] at h
      rw [applyW_cons]
      exact ih _ (hw.trans h)
    | none =>
      rw [hw] at h
      by_cases hp : p.1 = k
      · rw [if_pos hp] at h
        cases h
        subst hp
        rw [applyW_cons, alookup_applyW_not_written w _ p.1 hw,
          alookup_upsertA_self p.1 p.2 s]
      · simp [hp] at h

theorem alookup_of_mem_nodup (s : List (K × V)) (k : K) (v : V)
    (hnd : (akeys s).Nodup) (hm : (k, v) ∈ s) : alookup k s = some v := by
  induction s with
  | nil => simp at hm
  | cons p rest ih =>
    rw [akeys_cons] at hnd
    have hnd1 := (List.nodup_cons.mp hnd).1
    have hnd2 := (List.nodup_cons.mp hnd).2
    rcases List.mem_cons.mp hm with h | h
    · rw [← h]
      simp [alookup]
    · have hp : p.1 ≠ k := by
        intro hh
        apply hnd1
        rw [hh]
        exact mem_akeys_of_mem (p := (k, v)) h
      simp only [alookup, if_neg hp]
      exact ih hnd2 h

omit [DecidableEq K] in
theorem updVals_none (s : List (K × V)) : updVals (fun _ => none) s = s := by
  simp [updVals]

omit [DecidableEq K] in
theorem updVals_congr (f g : K → Option V) (s : List (K × V))
    (h : ∀ p ∈ s, f p.1 = g p.1) : updVals f s = updVals g s := by
  induction s with
  | nil => rfl
  | cons p rest ih =>
    simp only [updVals, List.map_cons]
    rw [h p (List.mem_cons_self p rest)]
    have hrest := ih (fun q hq => h q (List.mem_cons_of_mem p hq))
    simp only [updVals] at hrest
    rw [hrest]

/-- Replacing an existing key and then doing pointwise updates for the rest of
the writes is the same as doing pointwise updates for all the writes at once. -/
theorem updVals_upsertA (p : K × V) (w : List (K × V)) (s : List (K × V))
    (hmem : p.1 ∈ akeys s) (hnd : (akeys s).Nodup) :
    updVals (lastVal w) (upsertA p.1 p.2 s) = updVals (lastVal (p :: w)) s := by
  induction s with
  | nil => simp [akeys_nil] at hmem
  | cons q rest ih =>
    rw [akeys_cons] at hnd
    have hnotin := (List.nodup_cons.mp hnd).1
    have hndrest := (List.nodup_cons.mp hnd).2
    by_cases hq : q.1 = p.1
    · have hqrest : ∀ r ∈ rest, r.1 ≠ p.1 := by
        intro r hr hrp
        apply hnotin
        rw [hq, ← hrp]
        exact mem_akeys_of_mem hr
      have h2 : updVals (lastVal w) rest = updVals (lastVal (p :: w)) rest := by
        apply updVals_congr
        intro r hr
        rw [lastVal_cons]
        cases hlw : lastVal w r.1 with
        | some v => rfl
        | none =>
          have hpr : ¬(p.1 = r.1) := fun hh => hqrest r hr hh.symm
          simp [hpr]
      have hup : upsertA p.1 p.2 (q :: rest) = (p.1, p.2) :: rest := by
        simp [upsertA, hq]
      have hhead : lastVal (p :: w) q.1 =
          match lastVal w p.1 with
          | some v => some v
          | none => some p.2 := by
        rw [hq, lastVal_cons]
        cases lastVal w p.1 <;> simp
      have hheads : (match lastVal (p :: w) q.1 with
          | some u => (q.1, u)
          | none => q) =
          (match lastVal w p.1 with
          | some u => (p.1, u)
          | none => (p.1, p.2)) := by
        rw [hhead, hq]
        cases lastVal w p.1 <;> simp
      calc updVals (lastVal w) (upsertA p.1 p.2 (q :: rest))
          = (match lastVal w p.1 with
              | some u => (p.1, u)
              | none => (p.1, p.2)) :: updVals (lastVal w) rest := by
            rw [hup]
            simp only [updVals, List.map_cons]
        _ = (match lastVal (p :: w) q.1 with
              | some u => (q.1, u)
              | none => q) :: updVals (lastVal (p :: w)) rest := by
            rw [hheads, h2]
        _ = updVals (lastVal (p :: w)) (q :: rest) := by
            simp only [updVals, List.map_cons]
    · have hmem' : p.1 ∈ akeys rest := by
        rw [akeys_cons] at hmem
        rcases List.mem_cons.mp hmem with h0 | h0
        · exact absurd h0 (fun hh => hq hh.symm)
        · exact h0
      have hhead : lastVal (p :: w) q.1 = lastVal w q.1 := by
        rw [lastVal_cons]
        cases lastVal w q.1 with
        | some v => rfl
        | none =>
          have hpq : ¬(p.1 = q.1) := fun hh => hq hh.symm
          simp [hpq]
      have hup : upsertA p.1 p.2 (q :: rest) = q :: upsertA p.1 p.2 rest := by
        simp [upsertA, hq]
      rw [hup]
      simp only [updVals, List.map_cons, hhead]
      have htail := ih hmem' hndrest
      simp only [updVals] at htail
      rw [htail]

/-- When every written key is already present, applying the writes is a pure
pointwise value update: keys and row order do not change. -/
theorem applyW_eq_updVals (w s : List (K × V))
    (hnd : (akeys s).Nodup)
    (hmem : ∀ k v, lastVal w k = some v → k ∈ akeys s) :
    applyW w s = updVals (lastVal w) s := by
  induction w generalizing s with
  | nil =>
    rw [applyW_nil]
    exact (updVals_none s).symm
  | cons p w ih =>
    have hp : p.1 ∈ akeys s := by
      cases hlw : lastVal w p.1 with
      | some u => exact hmem p.1 u (by rw [lastVal_cons, hlw])
      | none => exact hmem p.1 p.2 (by rw [lastVal_cons, hlw]; simp)
    rw [applyW_cons]
    have hnd' : (akeys (upsertA p.1 p.2 s)).Nodup := nodup_akeys_upsertA _ _ _ hnd
    have hkeys : akeys (upsertA p.1 p.2 s) = akeys s := akeys_upsertA_mem _ _ _ hp
    have hmem' : ∀ k v, lastVal w k = some v → k ∈ akeys (upsertA p.1 p.2 s) := by
      intro k v hk
      rw [hkeys]
      apply hmem k v
      rw [lastVal_cons, hk]
    rw [ih _ hnd' hmem']
    exact updVals_upsertA p w s hp hnd

theorem map_eq_self_of_forall {α : Type} (f : α → α) (l : List α)
    (h : ∀ a ∈ l, f a = a) : l.map f = l := by
  induction l with
  | nil => rfl
  | cons a l ih =>
    simp only [List.map_cons, h a (List.mem_cons_self a l),
      ih (fun b hb => h b (List.mem_cons_of_mem a hb))]

/-- Applying the same write list twice is the same as applying it once
(idempotence of a batch of keyed upserts). -/
theorem applyW_idem (w s : List (K × V)) (hnd : (akeys s).Nodup) :
    applyW w (applyW w s) = applyW w s := by
  have hnd' : (akeys (applyW w s)).Nodup := nodup_akeys_applyW w s hnd
  have hmem : ∀ k v, lastVal w k = some v → k ∈ akeys (applyW w s) :=
    fun k v hk => mem_akeys_applyW_of_lastVal w s k v hk
  rw [applyW_eq_updVals w (applyW w s) hnd' hmem]
  apply map_eq_self_of_forall
  intro p hp
  cases hlv : lastVal w p.1 with
  | none => simp [hlv]
  | some u =>
    have h1 : alookup p.1 (applyW w s) = some p.2 :=
      alookup_of_mem_nodup _ _ _ hnd' hp
    have h2 : alookup p.1 (applyW w s) = some u :=
      alookup_applyW_lastVal w s p.1 u hlv
    rw [h1] at h2
    cases h2
    simp [hlv]

theorem lastVal_eq_none_of_forall (w : List (K × V)) (k : K)
    (h : ∀ p ∈ w, p.1 ≠ k) : lastVal w k = none := by
  induction w with
  | nil => rfl
  | cons p w ih =>
    rw [lastVal_cons, ih (fun q hq => h q (List.mem_cons_of_mem p hq))]
    simp [h p (List.mem_cons_self p w)]

theorem countKey_eq_zero_of_not_mem (k : K) (s : List (K × V))
    (h : k ∉ akeys s) : countKey k s = 0 := by
  induction s with
  | nil => rfl
  | cons p rest ih =>
    rw [akeys_cons] at h
    have hp : ¬(p.1 = k) := fun hh => h (by rw [hh]; exact List.mem_cons_self k _)
    have h' : k ∉ akeys rest := fun hh => h (List.mem_cons_of_mem _ hh)
    simp [countKey, hp, ih h']

theorem countKey_upsertA (k : K) (v : V) (s : List (K × V))
    (hnd : (akeys s).Nodup) : countKey k (upsertA k v s) = 1 := by
  induction s with
  | nil => simp [upsertA, countKey]
  | cons p rest ih =>
    rw [akeys_cons] at hnd
    have hnotin := (List.nodup_cons.mp hnd).1
    have hndrest := (List.nodup_cons.mp hnd).2
    by_cases hp : p.1 = k
    · have hk : k ∉ akeys rest := by
        rw [← hp]
        exact hnotin
      simp [upsertA, hp, countKey, countKey_eq_zero_of_not_mem k rest hk]
    · simp [upsertA, hp, countKey, ih hndrest]


end AssocTable

theorem bind_some_right {α : Type} (x : Option α) : x.bind some = x := by
  cases x <;> rfl

/-- The hand-written bind chain of `score_ticket` is the table-driven run of
its rule table. -/
theorem score_ticket_eq_runRules (t : ScoreTicket) (comments : List ScoreComment)
    (w : String → Option Int) (cfg : Cfg) :
    score_ticket t comments w cfg = runRules w (ruleTable t comments cfg) (0, []) := by
  simp only [score_ticket, ruleTable, runRules, bind_some_right]

/-- On success, the reason list is the accumulator's reasons followed by the
labels of exactly the fired rules, in table order. -/
theorem runRules_reasons (w : String → Option Int) (rules : List RuleI)
    (acc p : Int × List String) (h : runRules w rules acc = some p) :
    p.2 = acc.2 ++ (rules.filter (fun r => r.cond)).map (fun r => r.label) := by
  induction rules generalizing acc with
  | nil =>
    simp only [runRules] at h
    cases h
    simp
  | cons r rest ih =>
    simp only [runRules] at h
    by_cases hc : r.cond
    · cases hw : w r.key with
      | none => simp [step, hc, hw] at h
      | some v =>
        rw [show step w r.cond r.key r.label acc =
            some (acc.1 + v, acc.2 ++ [r.label]) by simp [step, hc, hw]] at h
        rw [Option.some_bind] at h
        rw [ih _ h]
        simp [List.filter_cons, hc, List.append_assoc]
    · rw [show step w r.cond r.key r.label acc = some acc by simp [step, hc]] at h
      rw [Option.some_bind] at h
      rw [ih _ h]
      simp [List.filter_cons, hc]
theorem processTicket_decomp (R : Remote) (bots : List String) (tid : Int)
    (s : Store) :
    processTicket R bots tid s =
      ⟨applyW (ticketWritesT R bots tid) s.tickets,
       applyW (ticketWritesC R bots tid) s.comments,
       applyW (ticketWritesA R bots tid) s.audits⟩ := by
  by_cases hskip : skipTicket R bots tid
  · simp only [processTicket, ticketWritesT, ticketWritesC, ticketWritesA,
      hskip, if_pos, applyW_nil]
  · simp only [processTicket, ticketWritesT, ticketWritesC, ticketWritesA,
      hskip, if_neg, ite_false, Bool.false_eq_true]
    by_cases hmt : (macroTitles R tid).isEmpty
    · simp only [hmt, ite_true]
      rfl
    · simp only [hmt, ite_false, Bool.false_eq_true]
      rfl

theorem ingestLoop_decomp (R : Remote) (bots : List String) (ids seen : List Int)
    (s : Store) :
    ingestLoop R bots ids seen s =
      ⟨applyW (runWritesT R bots ids seen) s.tickets,
       applyW (runWritesC R bots ids seen) s.comments,
       applyW (runWritesA R bots ids seen) s.audits⟩ := by
  induction ids generalizing seen s with
  | nil => rfl
  | cons tid rest ih =>
    by_cases hseen : seen.contains tid
    · simp only [ingestLoop, runWritesT, runWritesC, runWritesA, runWs, hseen,
        ite_true]
      have := ih seen s
      simp only [runWritesT, runWritesC, runWritesA] at this
      exact this
    · simp only [ingestLoop, runWritesT, runWritesC, runWritesA, runWs, hseen,
        ite_false, Bool.false_eq_true]
      have := ih (tid :: seen) (processTicket R bots tid s)
      simp only [runWritesT, runWritesC, runWritesA] at this
      rw [this, processTicket_decomp]
      simp [applyW_append]

theorem ingest_decomp (R : Remote) (bots : List String) (ids : List Int)
    (s : Store) :
    ingest R bots ids s =
      ⟨applyW (runWritesT R bots ids []) s.tickets,
       applyW (runWritesC R bots ids []) s.comments,
       applyW (runWritesA R bots ids []) s.audits⟩ :=
  ingestLoop_decomp R bots ids [] s

/-! ### Which keys a run writes -/

theorem mem_runWs {W : Type} (f : Int → List W) (ids seen : List Int) (p : W)
    (h : p ∈ runWs f ids seen) : ∃ t, t ∈ ids ∧ t ∉ seen ∧ p ∈ f t := by
  induction ids generalizing seen with
  | nil => simp [runWs] at h
  | cons tid rest ih =>
    simp only [runWs] at h
    by_cases hseen : seen.contains tid = true
    · rw [if_pos hseen] at h
      obtain ⟨t, ht1, ht2, ht3⟩ := ih seen h
      exact ⟨t, List.mem_cons_of_mem _ ht1, ht2, ht3⟩
    · rw [if_neg hseen] at h
      rcases List.mem_append.mp h with h | h
      · refine ⟨tid, List.mem_cons_self _ _, ?_, h⟩
        intro hmem
        exact hseen (List.elem_eq_true_of_mem hmem)
      · obtain ⟨t, ht1, ht2, ht3⟩ := ih (tid :: seen) h
        exact ⟨t, List.mem_cons_of_mem _ ht1,
          fun hh => ht2 (List.mem_cons_of_mem _ hh), ht3⟩

theorem lastVal_runWs_eq_none {K V : Type} [DecidableEq K]
    (f : Int → List (K × V)) (ids seen : List Int) (k : K)
    (h : ∀ t, t ∈ ids → t ∉ seen → ∀ p ∈ f t, p.1 ≠ k) :
    lastVal (runWs f ids seen) k = none := by
  apply lastVal_eq_none_of_forall
  intro p hp
  obtain ⟨t, ht1, ht2, ht3⟩ := mem_runWs f ids seen p hp
  exact h t ht1 ht2 p ht3

/-- The last write of a run at key `k` comes from the one processed ticket
that writes `k`, when no other discovered ticket can write that key. -/
theorem lastVal_runWs_eq {K V : Type} [DecidableEq K]
    (f : Int → List (K × V)) (ids seen : List Int) (tid : Int) (k : K) (v : V)
    (hin : tid ∈ ids) (hns : tid ∉ seen)
    (hother : ∀ t, t ≠ tid → ∀ p ∈ f t, p.1 ≠ k)
    (hself : lastVal (f tid) k = some v) :
    lastVal (runWs f ids seen) k = some v := by
  induction ids generalizing seen with
  | nil => simp at hin
  | cons t' rest ih =>
    simp only [runWs]
    by_cases hseen : seen.contains t' = true
    · rw [if_pos hseen]
      have ht' : t' ≠ tid := by
        intro hh
        exact hns (hh ▸ (List.mem_of_elem_eq_true hseen))
      have hin' : tid ∈ rest := by
        rcases List.mem_cons.mp hin with h | h
        · exact absurd h.symm ht'
        · exact h
      exact ih seen hin' hns
    · rw [if_neg hseen, lastVal_append]
      by_cases htt : t' = tid
      · subst htt
        have hrest : lastVal (runWs f rest (t' :: seen)) k = none := by
          apply lastVal_runWs_eq_none
          intro t ht hns2 p hp
          have hne : t ≠ t' := fun hh => hns2 (hh ▸ List.mem_cons_self _ _)
          exact hother t hne p hp
        rw [hrest, hself]
      · have hin' : tid ∈ rest := by
          rcases List.mem_cons.mp hin with h | h
          · exact absurd h.symm htt
          · exact h
        have hns' : tid ∉ t' :: seen := by
          intro hh
          rcases List.mem_cons.mp hh with h | h
          · exact htt h.symm
          · exact hns h
        rw [ih (t' :: seen) hin' hns']

/-- The key of a surviving ticket's one ticket-table write: the remote
payload's id column (equal to `some t` for a well-formed remote). -/
theorem mem_ticketWritesT (R : Remote) (bots : List String) (t : Int)
    (p : Option Int × TicketRow) (hp : p ∈ ticketWritesT R bots t) :
    skipTicket R bots t = false ∧ p = ((R.tickets t).id, ticketRowOf R t) := by
  unfold ticketWritesT at hp
  by_cases hskip : skipTicket R bots t = true
  · rw [if_pos hskip] at hp
    simp at hp
  · rw [if_neg hskip] at hp
    have hid : (ticketRowOf R t).id = (R.tickets t).id := rfl
    rcases List.mem_singleton.mp hp with h
    exact ⟨Bool.not_eq_true _ ▸ Bool.of_not_eq_true hskip, by rw [h, hid]⟩

theorem mem_commentRowsFrom_key (R : Remote) (tid : Int) (base : Nat)
    (cs : List CommentD) (p : (Int × Nat) × CommentRow)
    (hp : p ∈ commentRowsFrom R tid base cs) :
    p.1.1 = tid ∧ base ≤ p.1.2 ∧ p.1.2 < base + cs.length := by
  induction cs generalizing base with
  | nil => simp [commentRowsFrom] at hp
  | cons c rest ih =>
    simp only [commentRowsFrom, List.mem_cons] at hp
    rcases hp with hp | hp
    · rw [hp]
      refine ⟨rfl, le_refl _, ?_⟩
      simp only [List.length_cons]
      omega
    · obtain ⟨h1, h2, h3⟩ := ih (base + 1) hp
      refine ⟨h1, by omega, ?_⟩
      simp only [List.length_cons]
      omega

theorem mem_ticketWritesC (R : Remote) (bots : List String) (t : Int)
    (p : (Int × Nat) × CommentRow) (hp : p ∈ ticketWritesC R bots t) :
    p.1.1 = t ∧ p.1.2 < (R.comments t).length := by
  unfold ticketWritesC at hp
  by_cases hskip : skipTicket R bots t = true
  · rw [if_pos hskip] at hp
    simp at hp
  · rw [if_neg hskip] at hp
    obtain ⟨h1, _, h3⟩ := mem_commentRowsFrom_key R t 0 (R.comments t) p hp
    exact ⟨h1, by omega⟩

theorem mem_ticketWritesA (R : Remote) (bots : List String) (t : Int)
    (p : (Int × Option String) × String) (hp : p ∈ ticketWritesA R bots t) :
    p.1.1 = t := by
  unfold ticketWritesA at hp
  by_cases hskip : skipTicket R bots t = true
  · rw [if_pos hskip] at hp
    simp at hp
  · rw [if_neg hskip] at hp
    by_cases hmt : (macroTitles R t).isEmpty = true
    · simp [hmt] at hp
    · rw [if_neg hmt] at hp
      rcases List.mem_singleton.mp hp with h
      rw [h]

/-- Within one surviving ticket's comment writes, the row at thread position
`j` is the last (indeed only) write at key `(tid, base + j)`. -/
theorem lastVal_commentRowsFrom (R : Remote) (tid : Int) (cs : List CommentD)
    (base j : Nat) (hj : j < cs.length) :
    lastVal (commentRowsFrom R tid base cs) (tid, base + j) =
      some (commentRow R (cs.get ⟨j, hj⟩)) := by
  induction cs generalizing base j with
  | nil => simp at hj
  | cons c rest ih =>
    cases j with
    | zero =>
      simp only [commentRowsFrom]
      rw [lastVal_cons]
      have hnone :
          lastVal (commentRowsFrom R tid (base + 1) rest) (tid, base + 0) = none := by
        apply lastVal_eq_none_of_forall
        intro p hp
        obtain ⟨_, h2, _⟩ := mem_commentRowsFrom_key R tid (base + 1) rest p hp
        intro hk
        rw [hk] at h2
        simp at h2
      rw [hnone]
      simp [List.get]
    | succ jj =>
      simp only [commentRowsFrom]
      rw [lastVal_cons]
      have hb : base + (jj + 1) = (base + 1) + jj := by omega
      have hj' : jj < rest.length := by
        simp only [List.length_cons] at hj
        omega
      rw [hb, ih (base + 1) jj hj']
      rfl

/-! ### get_json retry-loop lemmas -/

/-- If every response in the remaining attempt window is retryable (429 or
5xx), the loop exhausts its budget and reports the terminal error. -/
theorem get_json_go_exhausts (resp : Nat → HttpResp) (rem : Nat) :
    ∀ (attempt backoff : Nat) (sleeps : List Nat),
    (∀ i, attempt ≤ i → i < attempt + rem →
      (resp i).status = 429 ∨ 500 ≤ (resp i).status) →
    (get_json_go resp attempt rem backoff sleeps).1 =
      Except.error GetErr.exhausted := by
  induction rem with
  | zero =>
    intro attempt backoff sleeps _
    rfl
  | succ rem ih =>
    intro attempt backoff sleeps h
    have hr := h attempt (le_refl _) (by omega)
    simp only [get_json_go]
    rcases hr with h429 | h5xx
    · rw [if_pos (by simp [h429])]
      exact ih (attempt + 1) _ _ (fun i hi1 hi2 => h i (by omega) (by omega))
    · have hne : ¬(((resp attempt).status == 429) = true) := by
        intro hc
        have h429' : (resp attempt).status = 429 := by simpa using hc
        omega
      rw [if_neg hne, if_pos (show (resp attempt).status ≥ 400 by omega)]
      have hnotff : ¬(fastFailStatuses.contains (resp attempt).status = true) := by
        intro hc
        have hmem := List.mem_of_elem_eq_true hc
        simp only [fastFailStatuses, List.mem_cons, List.not_mem_nil,
          or_false] at hmem
        rcases hmem with h' | h' | h' | h' | h' <;> omega
      rw [if_neg hnotff]
      exact ih (attempt + 1) _ _ (fun i hi1 hi2 => h i (by omega) (by omega))

/-- Every sleep the retry loop ever performs is capped: 429 sleeps at 20,
5xx backoff sleeps at 10. -/
theorem get_json_go_sleeps_bounded (resp : Nat → HttpResp) (rem : Nat) :
    ∀ (attempt backoff : Nat) (sleeps : List Nat),
    (∀ d ∈ sleeps, d ≤ 20) →
    ∀ d ∈ (get_json_go resp attempt rem backoff sleeps).2, d ≤ 20 := by
  induction rem with
  | zero =>
    intro attempt backoff sleeps hs d hd
    exact hs d hd
  | succ rem ih =>
    intro attempt backoff sleeps hs
    simp only [get_json_go]
    by_cases h429 : ((resp attempt).status == 429) = true
    · rw [if_pos h429]
      apply ih
      intro d hd
      rcases List.mem_append.mp hd with h | h
      · exact hs d h
      · rw [List.mem_singleton.mp h]
        exact Nat.min_le_right _ _
    · rw [if_neg h429]
      by_cases h400 : (resp attempt).status ≥ 400
      · rw [if_pos h400]
        by_cases hff : (fastFailStatuses.contains (resp attempt).status) = true
        · rw [if_pos hff]
          exact fun d hd => hs d hd
        · rw [if_neg hff]
          apply ih
          intro d hd
          rcases List.mem_append.mp hd with h | h
          · exact hs d h
          · rw [List.mem_singleton.mp h]
            exact le_trans (Nat.min_le_right _ _) (by omega)
      · rw [if_neg h400]
        exact fun d hd => hs d hd

/-! ### Claim theorems -/

/-- C1: ingest idempotence — over a fixed remote dataset, re-running the same
ingest leaves every table of the store (row count, keys and field values)
exactly as one run does; and no run ever creates duplicate rows (every
table's key-uniqueness is preserved under repeated runs). -/
theorem ingest_idempotent (R : Remote) (bots : List String) (ids : List Int)
    (s : Store) (hT : (akeys s.tickets).Nodup) (hC : (akeys s.comments).Nodup)
    (hA : (akeys s.audits).Nodup) :
    ingest R bots ids (ingest R bots ids s) = ingest R bots ids s ∧
    (akeys (ingest R bots ids s).tickets).Nodup ∧
    (akeys (ingest R bots ids s).comments).Nodup ∧
    (akeys (ingest R bots ids s).audits).Nodup := by
  have e1 : (ingest R bots ids s).tickets =
      applyW (runWritesT R bots ids []) s.tickets := by
    rw [ingest_decomp]
  have e2 : (ingest R bots ids s).comments =
      applyW (runWritesC R bots ids []) s.comments := by
    rw [ingest_decomp]
  have e3 : (ingest R bots ids s).audits =
      applyW (runWritesA R bots ids []) s.audits := by
    rw [ingest_decomp]
  refine ⟨?_, ?_, ?_, ?_⟩
  · rw [ingest_decomp R bots ids (ingest R bots ids s), e1, e2, e3,
      applyW_idem _ _ hT, applyW_idem _ _ hC, applyW_idem _ _ hA,
      ← e1, ← e2, ← e3]
  · rw [e1]
    exact nodup_akeys_applyW _ _ hT
  · rw [e2]
    exact nodup_akeys_applyW _ _ hC
  · rw [e3]
    exact nodup_akeys_applyW _ _ hA

/-- C1 witness: idempotence at a concrete remote, run and empty store. -/
theorem ingest_idempotent_witness :
    ingest R1ex BOT_EMAILS [1] (ingest R1ex BOT_EMAILS [1] emptyStore) =
      ingest R1ex BOT_EMAILS [1] emptyStore ∧
    (akeys (ingest R1ex BOT_EMAILS [1] emptyStore).tickets).Nodup ∧
    (akeys (ingest R1ex BOT_EMAILS [1] emptyStore).comments).Nodup ∧
    (akeys (ingest R1ex BOT_EMAILS [1] emptyStore).audits).Nodup :=
  ingest_idempotent R1ex BOT_EMAILS [1] emptyStore (by decide) (by decide)
    (by decide)

/-- C2 counterexample: ticket 1's remote thread shrank from two comments
(R1ex) to one (R2ex); after re-ingesting, the store still holds the stale
comment at idx 1, so the stored comments ordered by idx do not reproduce the
one-comment thread of the most recent ingestion. -/
theorem comment_rewrite_counterexample :
    (R2ex.comments 1).length = 1 ∧
    alookup ((1 : Int), (1 : Nat))
      (ingest R2ex BOT_EMAILS [1]
        (ingest R1ex BOT_EMAILS [1] emptyStore)).comments =
      some (commentRow R1ex commentB) := by
  constructor
  · decide
  · decide

/-- C2 (amended): after a run that processes ticket `tid`, the stored comment
at key (tid, j) for every index j below the remote thread's length is exactly
the j-th remote comment's row; keys at or beyond the new thread length are
never touched (no delete is performed), so an earlier longer thread leaves
its higher-idx rows in place. -/
theorem comment_rewrite_amended (R : Remote) (bots : List String)
    (ids : List Int) (s : Store) (tid : Int)
    (hin : tid ∈ ids) (hskip : skipTicket R bots tid = false) :
    (∀ (j : Nat) (hj : j < (R.comments tid).length),
      alookup (tid, j) (ingest R bots ids s).comments =
        some (commentRow R ((R.comments tid).get ⟨j, hj⟩))) ∧
    (∀ j : Nat, (R.comments tid).length ≤ j →
      alookup (tid, j) (ingest R bots ids s).comments =
        alookup (tid, j) s.comments) := by
  have e2 : (ingest R bots ids s).comments =
      applyW (runWritesC R bots ids []) s.comments := by
    rw [ingest_decomp]
  constructor
  · intro j hj
    rw [e2]
    apply alookup_applyW_lastVal
    unfold runWritesC
    apply lastVal_runWs_eq (ticketWritesC R bots) ids [] tid (tid, j) _ hin
      (by simp)
    · intro t' htne p hp
      have hk := mem_ticketWritesC R bots t' p hp
      intro hkey
      apply htne
      rw [← hk.1, hkey]
    · unfold ticketWritesC
      rw [if_neg (by simp [hskip])]
      have hlv := lastVal_commentRowsFrom R tid (R.comments tid) 0 j hj
      rw [Nat.zero_add] at hlv
      exact hlv
  · intro j hj
    rw [e2]
    apply alookup_applyW_not_written
    unfold runWritesC
    apply lastVal_runWs_eq_none
    intro t ht hns p hp
    have hk := mem_ticketWritesC R bots t p hp
    intro hkey
    have h1 : t = tid := by rw [← hk.1, hkey]
    have h2 := hk.2
    rw [hkey, h1] at h2
    simp at h2
    omega

/-- C2 witness: the amended in-range part at a concrete remote and index. -/
theorem comment_rewrite_amended_witness :
    alookup ((1 : Int), (0 : Nat))
      (ingest R1ex BOT_EMAILS [1] emptyStore).comments =
      some (commentRow R1ex ((R1ex.comments 1).get ⟨0, by decide⟩)) :=
  (comment_rewrite_amended R1ex BOT_EMAILS [1] emptyStore 1 (by decide)
    (by decide)).1 0 (by decide)

/-- C3 counterexample: ticket 7 of R3ex has a public comment whose author is
neither the requester nor a bot email (the claim's last rule passes, so the
claim says the ticket is upserted), yet the code skips it because the
comment's resolved author email is empty — no ticket row is written. -/
theorem exclusion_counterexample :
    claimSkip R3ex BOT_EMAILS 7 = false ∧
    (ingest R3ex BOT_EMAILS [7] emptyStore).tickets = [] := by
  constructor
  · decide
  · decide

/-- C3 (amended): with the qualifying-reply rule strengthened to require a
non-empty author email (as the code does), exclusion is exact: a skipped
ticket's keys are untouched in all three tables, and a discovered,
non-skipped ticket's row is upserted. -/
theorem exclusion_correct_amended (R : Remote) (bots : List String)
    (ids : List Int) (s : Store) (tid : Int)
    (hR : ∀ i, (R.tickets i).id = some i) :
    (skipTicket R bots tid = true →
      alookup (some tid) (ingest R bots ids s).tickets =
        alookup (some tid) s.tickets ∧
      (∀ j : Nat, alookup (tid, j) (ingest R bots ids s).comments =
        alookup (tid, j) s.comments) ∧
      (∀ d : Option String, alookup (tid, d) (ingest R bots ids s).audits =
        alookup (tid, d) s.audits)) ∧
    (tid ∈ ids → skipTicket R bots tid = false →
      alookup (some tid) (ingest R bots ids s).tickets =
        some (ticketRowOf R tid)) := by
  have e1 : (ingest R bots ids s).tickets =
      applyW (runWritesT R bots ids []) s.tickets := by
    rw [ingest_decomp]
  have e2 : (ingest R bots ids s).comments =
      applyW (runWritesC R bots ids []) s.comments := by
    rw [ingest_decomp]
  have e3 : (ingest R bots ids s).audits =
      applyW (runWritesA R bots ids []) s.audits := by
    rw [ingest_decomp]
  constructor
  · intro hskip
    refine ⟨?_, ?_, ?_⟩
    · rw [e1]
      apply alookup_applyW_not_written
      unfold runWritesT
      apply lastVal_runWs_eq_none
      intro t ht hns p hp
      obtain ⟨hsf, hpe⟩ := mem_ticketWritesT R bots t p hp
      intro hkey
      rw [hpe] at hkey
      simp only at hkey
      rw [hR t] at hkey
      have ht' : t = tid := Option.some_inj.mp hkey
      rw [ht'] at hsf
      rw [hsf] at hskip
      exact Bool.noConfusion hskip
    · intro j
      rw [e2]
      apply alookup_applyW_not_written
      unfold runWritesC
      apply lastVal_runWs_eq_none
      intro t ht hns p hp
      intro hkey
      have hk := mem_ticketWritesC R bots t p hp
      have ht' : t = tid := by rw [← hk.1, hkey]
      rw [ht'] at hp
      unfold ticketWritesC at hp
      rw [if_pos hskip] at hp
      exact absurd hp (List.not_mem_nil p)
    · intro d
      rw [e3]
      apply alookup_applyW_not_written
      unfold runWritesA
      apply lastVal_runWs_eq_none
      intro t ht hns p hp
      intro hkey
      have hk := mem_ticketWritesA R bots t p hp
      have ht' : t = tid := by rw [← hk, hkey]
      rw [ht'] at hp
      unfold ticketWritesA at hp
      rw [if_pos hskip] at hp
      exact absurd hp (List.not_mem_nil p)
  · intro hin hskip
    rw [e1]
    apply alookup_applyW_lastVal
    unfold runWritesT
    apply lastVal_runWs_eq (ticketWritesT R bots) ids [] tid (some tid) _ hin
      (by simp)
    · intro t htne p hp
      obtain ⟨hsf, hpe⟩ := mem_ticketWritesT R bots t p hp
      intro hkey
      rw [hpe] at hkey
      simp only at hkey
      rw [hR t] at hkey
      exact htne (Option.some_inj.mp hkey)
    · unfold ticketWritesT
      rw [if_neg (by simp [hskip])]
      have hid : (ticketRowOf R tid).id = some tid := by
        rw [show (ticketRowOf R tid).id = (R.tickets tid).id from rfl, hR tid]
      simp [lastVal, hid]

/-- C3 witness: the positive direction at a concrete well-formed remote. -/
theorem exclusion_correct_amended_witness :
    alookup (some (1 : Int)) (ingest R1ex BOT_EMAILS [1] emptyStore).tickets =
      some (ticketRowOf R1ex 1) :=
  (exclusion_correct_amended R1ex BOT_EMAILS [1] emptyStore 1
    (fun _ => rfl)).2 (by decide) (by decide)

/-- C4: upsert overwrite — upserting a row and then a second row with the
same id leaves exactly one row at that id, holding the second row's values in
every column. -/
theorem upsert_overwrite (s : List (Option Int × TicketRow))
    (r1 r2 : TicketRow) (hid : r1.id = r2.id) (hnd : (akeys s).Nodup) :
    alookup r1.id (upsert_ticket (upsert_ticket s r1) r2) = some r2 ∧
    countKey r1.id (upsert_ticket (upsert_ticket s r1) r2) = 1 := by
  rw [hid]
  constructor
  · exact alookup_upsertA_self _ _ _
  · exact countKey_upsertA _ _ _ (nodup_akeys_upsertA _ _ _ hnd)

/-- C4 witness: id 42, subject "A" then subject "B", from an empty table. -/
theorem upsert_overwrite_witness :
    alookup rowA.id (upsert_ticket (upsert_ticket [] rowA) rowB) = some rowB ∧
    countKey rowA.id (upsert_ticket (upsert_ticket [] rowA) rowB) = 1 :=
  upsert_overwrite [] rowA rowB rfl (by decide)

/-- C5: rate-limit backoff — three 429s then a 200 yield exactly three
sleeps, each capped (at most 20), and the parsed 200 payload with no error;
and a remote that answers 429/5xx through the whole 5-attempt ceiling makes
get_json return the terminal retry-exhausted error. -/
theorem rate_limit_backoff (resp resp2 : Nat → HttpResp)
    (h0 : (resp 0).status = 429) (h1 : (resp 1).status = 429)
    (h2 : (resp 2).status = 429) (h3 : (resp 3).status = 200)
    (hp : ∀ i, i < 5 → (resp2 i).status = 429 ∨ 500 ≤ (resp2 i).status) :
    ((get_json resp).1 = Except.ok (resp 3).body ∧
     (get_json resp).2.length = 3 ∧
     (∀ d ∈ (get_json resp).2, d ≤ 20)) ∧
    (get_json resp2).1 = Except.error GetErr.exhausted := by
  refine ⟨⟨?_, ?_, ?_⟩, ?_⟩
  · simp [get_json, get_json_go, h0, h1, h2, h3]
  · simp [get_json, get_json_go, h0, h1, h2, h3]
  · exact get_json_go_sleeps_bounded resp 5 0 2 [] (by simp)
  · exact get_json_go_exhausts resp2 5 0 2 []
      (fun i hi1 hi2 => hp i (by omega))

/-- C5 witness: the backoff theorem at concrete response sequences. -/
theorem rate_limit_backoff_witness :
    ((get_json respOk).1 = Except.ok (respOk 3).body ∧
     (get_json respOk).2.length = 3 ∧
     (∀ d ∈ (get_json respOk).2, d ≤ 20)) ∧
    (get_json respBad).1 = Except.error GetErr.exhausted :=
  rate_limit_backoff respOk respBad (by decide) (by decide) (by decide)
    (by decide) (fun i _ => Or.inr (by show (500 : Nat) ≤ 503; decide))

/-- C6: score_ticket is deterministic (a pure function of its four inputs)
and, whenever it returns, its reason list is exactly the labels of the fired
rules in the fixed evaluation order of the rule table — never reordered. -/
theorem scoring_deterministic_fixed_order (t : ScoreTicket)
    (comments : List ScoreComment) (w : String → Option Int) (cfg : Cfg) :
    score_ticket t comments w cfg = score_ticket t comments w cfg ∧
    (∀ p : Int × List String, score_ticket t comments w cfg = some p →
      p.2 = ((ruleTable t comments cfg).filter (fun r => r.cond)).map
        (fun r => r.label)) := by
  refine ⟨rfl, ?_⟩
  intro p hp
  rw [score_ticket_eq_runRules] at hp
  have h := runRules_reasons w (ruleTable t comments cfg) (0, []) p hp
  simpa using h

/-- C6 witness: the fired-labels characterization at a concrete input. -/
theorem scoring_deterministic_fixed_order_witness :
    ((0 : Int), ([] : List String)).2 =
      ((ruleTable ⟨none, none, false⟩ []
          ⟨false, false, false, false, false, false, false⟩).filter
        (fun r => r.cond)).map (fun r => r.label) :=
  (scoring_deterministic_fixed_order ⟨none, none, false⟩ [] (fun _ => none)
    ⟨false, false, false, false, false, false, false⟩).2
    ((0 : Int), ([] : List String)) (by decide)

/-- C7: the easy-issue-penalty scenario — csat 1, the easy-only derived
signal set, no sensitive hit and nothing else firing, under the spec's
default weights — scores 15 − 20 = −5 with reasons exactly
["Low CSAT", "Easy tech-only"] in that order. -/
theorem easy_issue_penalty_scenario :
    score_ticket ⟨some 1, none, false⟩ [] defaultWeightFn
      ⟨false, false, false, false, false, false, true⟩ =
      some (-5, ["Low CSAT", "Easy tech-only"]) := by
  decide

/-- C8: BPO classification is first-match evaluation of the ordered substring
rule list over the joined lowercased group names, null on no match; with the
two scenario instances. -/
theorem bpo_classification (gs : List String) :
    infer_bpo_from_groups gs = bpoSpec gs ∧
    infer_bpo_from_groups ["ICX Tier 2"] = some "ICX" ∧
    infer_bpo_from_groups ["Unrelated Team"] = none := by
  refine ⟨?_, by decide, by decide⟩
  simp [infer_bpo_from_groups, bpoSpec, bpoRules, firstMatch]

/-- C9: match_keywords is vacuously true on an empty include list for every
text and every mode string (the empty-include early return precedes the mode
dispatch, so the standard modes are covered too), and an unrecognized mode
with a non-empty include list also returns true (it neither raises nor
returns false). -/
theorem match_keywords_vacuous (rs : String → String → Bool)
    (text mode : String) (inc : List String)
    (hne : inc ≠ [])
    (hmode : mode ∉ (["any", "all", "phrase", "regex"] : List String)) :
    (∀ txt m : String, match_keywords rs txt [] m = true) ∧
    match_keywords rs text inc mode = true := by
  have h1 : inc.isEmpty = false := by
    cases inc with
    | nil => exact absurd rfl hne
    | cons a l => rfl
  simp only [List.mem_cons, List.mem_singleton, List.not_mem_nil, or_false,
    not_or] at hmode
  obtain ⟨hma, hmall, hmph, hmr⟩ := hmode
  constructor
  · intro txt m
    rfl
  · simp [match_keywords, h1, hma, hmall, hmph, hmr]

/-- C9 witness: the empty-include part at a standard mode ("any") and the
unknown-mode part at a non-empty include list. -/
theorem match_keywords_vacuous_witness :
    match_keywords (fun _ _ => false) "the game keeps crashing" [] "any" =
      true ∧
    match_keywords (fun _ _ => false) "the game keeps crashing" ["crash"]
      "weird" = true :=
  ⟨(match_keywords_vacuous (fun _ _ => false) "the game keeps crashing"
      "weird" ["crash"] (by decide) (by decide)).1 "the game keeps crashing"
      "any",
   (match_keywords_vacuous (fun _ _ => false) "the game keeps crashing"
      "weird" ["crash"] (by decide) (by decide)).2⟩

/-- C10: when no rule fires — csat absent, all derived-signal flags false,
not reopened, at most two distinct public authors, at most four public
comments — score_ticket returns (0, []) for every weights mapping, including
one missing every key: no weight is ever read. -/
theorem score_no_rule_fired (t : ScoreTicket) (comments : List ScoreComment)
    (cfg : Cfg) (w : String → Option Int)
    (h1 : t.csat = none) (h2 : t.reopenedRecently = false)
    (h3 : cfg.sensitiveHit = false) (h4 : cfg.isComplaint = false)
    (h5 : cfg.macroMismatch = false) (h6 : cfg.multiTopic = false)
    (h7 : cfg.personalization = false) (h8 : cfg.empathy = false)
    (h9 : cfg.easyOnly = false)
    (h10 : multiple_humans_in_thread comments = false)
    (h11 : long_thread comments = false) :
    score_ticket t comments w cfg = some (0, []) := by
  simp [score_ticket, step, h1, h2, h3, h4, h5, h6, h7, h8, h9, h10, h11]

/-- C10 witness: a thread with two public authors, the empty weights map. -/
theorem score_no_rule_fired_witness :
    score_ticket ⟨none, none, false⟩
      [⟨true, "a@x.com"⟩, ⟨true, "b@x.com"⟩] (fun _ => none)
      ⟨false, false, false, false, false, false, false⟩ = some (0, []) :=
  score_no_rule_fired ⟨none, none, false⟩
    [⟨true, "a@x.com"⟩, ⟨true, "b@x.com"⟩]
    ⟨false, false, false, false, false, false, false⟩ (fun _ => none)
    rfl rfl rfl rfl rfl rfl rfl rfl rfl (by decide) (by decide)

end QA
